import Mathlib

/-!
Shallow embedding of the budget-fitting context-packing engine of the
CortextAST repository (`src/model.js`, `src/config.js`, `src/preset.js`,
`src/packer.js`, `src/focus_auto.js`), together with proofs settling the
frozen claims about its specification.

JavaScript strings are modelled as `List Char` (with `String` wrappers at
the interfaces), JavaScript numbers as `ℚ` where fractional values can
occur and as `ℕ` for byte/char counts, and the filesystem as an explicit
environment of pure functions.  Filesystem writes performed by the
orchestrator are recorded as an explicit operation trace.
-/

namespace CS

/-! ## Generic string helpers (JS semantics) -/

/-- JS `\s` whitespace test, restricted to the ASCII whitespace that can
occur in the inputs of interest (space, tab, CR, LF). -/
def isJsWs (c : Char) : Bool := c.isWhitespace

/-- JS `String.prototype.trim`: drop whitespace from both ends. -/
def trimL (s : List Char) : List Char :=
  ((s.dropWhile isJsWs).reverse.dropWhile isJsWs).reverse

/-- Does `p` occur as an initial segment of `s`?  (JS `s.startsWith(p)`
with `p` the first argument.) -/
def startsWithL : List Char → List Char → Bool
  | [], _ => true
  | _ :: _, [] => false
  | p :: ps, c :: cs => p = c && startsWithL ps cs

/-- JS `s.replaceAll(c, rep)` for a single-character pattern `c`:
a single left-to-right pass, replacements are not rescanned. -/
def repChar (c : Char) (rep : List Char) (s : List Char) : List Char :=
  s.flatMap (fun x => if x = c then rep else [x])

/-! ## `src/model.js` — normalizeModelName -/

/-- The `beforeAt.startsWith("copilot/") ? beforeAt.slice(...) : beforeAt`
step of `normalizeModelName`. -/
def stripCopilot : List Char → List Char
  | 'c' :: 'o' :: 'p' :: 'i' :: 'l' :: 'o' :: 't' :: '/' :: rest => rest
  | s => s

/-- The `.replace(/^gpt\s*/i, "gpt-")` step (the input is already
lowercased at this point, so the `i` flag is immaterial). -/
def gptHyphen : List Char → List Char
  | 'g' :: 'p' :: 't' :: rest => 'g' :: 'p' :: 't' :: '-' :: rest.dropWhile isJsWs
  | s => s

/-- The `.replace(/\s+/g, "-")` step: each maximal whitespace run becomes
a single hyphen. -/
def collapseWs : List Char → List Char
  | [] => []
  | [c] => if isJsWs c then ['-'] else [c]
  | c :: d :: rest =>
    if isJsWs c then
      if isJsWs d then collapseWs (d :: rest)
      else '-' :: collapseWs (d :: rest)
    else c :: collapseWs (d :: rest)

/-- The `.replace(/\(preview\)/g, "")` step: delete every literal
occurrence of `(preview)`, left to right, without rescanning. -/
def removePreviewAll : List Char → List Char
  | '(' :: 'p' :: 'r' :: 'e' :: 'v' :: 'i' :: 'e' :: 'w' :: ')' :: rest => removePreviewAll rest
  | c :: rest => c :: removePreviewAll rest
  | [] => []

/-- The step replacing every run of two or more hyphens with a single
hyphen (the fourth `.replace` call): every maximal run of hyphens
collapses to a single hyphen (a run of length one is left alone, which
gives the same output). -/
def collapseHyphens : List Char → List Char
  | [] => []
  | [c] => [c]
  | c :: d :: rest =>
    if c = '-' && d = '-' then collapseHyphens (d :: rest)
    else c :: collapseHyphens (d :: rest)

/-- `normalizeModelName` from `src/model.js`, on character lists.
Empty / missing input yields the empty string before any other step. -/
def normalizeCore (raw : List Char) : List Char :=
  let s0 := trimL (raw.map Char.toLower)
  if s0.isEmpty then []
  else
    let beforeAt := s0.takeWhile (fun c => c ≠ '@')
    let cleaned := stripCopilot beforeAt
    trimL (collapseHyphens (removePreviewAll (collapseWs (gptHyphen cleaned))))

/-- `normalizeModelName(raw)` from `src/model.js`. -/
def normalizeModelName (raw : String) : String :=
  String.mk (normalizeCore raw.data)

/-! ## `src/model.js` — model lookup and budget resolution -/

/-- First-match association-list lookup; JS object property access for
objects built from parsed JSON (keys unique). -/
def lookupF {α : Type} : List (String × α) → String → Option α
  | [], _ => none
  | (k', v) :: rest, k => if k' = k then some v else lookupF rest k

/-- One entry of `ctx.models`; `contextWindowTokens` may be absent
(`entry?.contextWindowTokens` is optional-chained in the source). -/
structure ModelEntry where
  contextWindowTokens : Option ℚ
deriving Repr, DecidableEq

/-- The `ctx.policy` object; every field is optional-chained with a
default in the source. -/
structure BudgetPolicy where
  targetFractionOfContext : Option ℚ
  minBudgetTokens : Option ℚ
  maxBudgetTokens : Option ℚ
deriving Repr, DecidableEq

/-- The `ctx` argument of `resolveModelKey` / `budgetForModel`
(`modelContexts` in the resolved config). -/
structure ModelCtx where
  models : List (String × ModelEntry)
  policy : Option BudgetPolicy
deriving Repr, DecidableEq

/-- `resolveModelKey(model, ctx)` from `src/model.js`: exact key match
wins; otherwise the first declared key `k` with `model === k` or
`model.startsWith(k + "-")`; otherwise `model` unchanged. -/
def resolveModelKey (model : String) (ctx : ModelCtx) : String :=
  if (lookupF ctx.models model).isSome then model
  else
    match ctx.models.find? (fun p => model = p.1 || startsWithL (p.1 ++ "-").data model.data) with
    | some p => p.1
    | none => model

/-- The `windowTokens` computation inside `budgetForModel`:
the resolved entry's `contextWindowTokens`, else the `"gpt-4.1"` entry's,
else `64000`. -/
def windowTokensOf (model : String) (ctx : ModelCtx) : ℚ :=
  match (lookupF ctx.models (resolveModelKey model ctx)).bind ModelEntry.contextWindowTokens with
  | some w => w
  | none =>
    match (lookupF ctx.models ("gpt-4.1")).bind ModelEntry.contextWindowTokens with
    | some w => w
    | none => 64000

/-- `budgetForModel(model, ctx)` from `src/model.js`:
`Math.min(maxB, Math.max(minB, Math.floor(windowTokens * fraction)))`
with the source's fallback defaults for the policy fields. -/
def budgetForModel (model : String) (ctx : ModelCtx) : ℚ :=
  let windowTokens := windowTokensOf model ctx
  let frac := (ctx.policy.bind BudgetPolicy.targetFractionOfContext).getD (1 / 4)
  let target : ℚ := ((⌊windowTokens * frac⌋ : ℤ) : ℚ)
  let minB := (ctx.policy.bind BudgetPolicy.minBudgetTokens).getD 6000
  let maxB := (ctx.policy.bind BudgetPolicy.maxBudgetTokens).getD 60000
  min maxB (max minB target)

/-! ## `src/focus_auto.js` — chooseModes -/

/-- `chooseModes(budgetTokens)` from `src/focus_auto.js`. -/
def chooseModes (budgetTokens : ℚ) : List String :=
  if budgetTokens ≥ 45000 then ["full", "lite", "lite-compress", "lite-compress-min"]
  else if budgetTokens ≥ 20000 then ["lite", "lite-compress", "lite-compress-min"]
  else ["lite-compress", "lite-compress-min"]

/-! ## `src/config.js` — deepMerge over a JSON value model -/

/-- JSON documents, as produced by `JSON.parse` (object keys unique, in
document order). -/
inductive JValue where
  | null
  | bool (b : Bool)
  | num (q : ℚ)
  | str (s : String)
  | arr (elems : List JValue)
  | obj (fields : List (String × JValue))

/-- `isObject(x)` from `src/config.js`: truthy, `typeof "object"`, and not
an array — of the JSON values exactly the `obj` constructor. -/
def isObjectJ : JValue → Bool
  | .obj _ => true
  | _ => false

mutual

/-- `deepMerge(base, extra)` from `src/config.js`: if either side is not
an object the extra value replaces the base wholesale; otherwise start
from a copy of the base's fields and assign each extra field in order. -/
def deepMerge : JValue → JValue → JValue
  | .obj bfs, .obj efs => .obj (applyOverride bfs efs)
  | _, e => e
termination_by b e => (sizeOf e, 0)
decreasing_by
  simp_wf
  exact Prod.Lex.left _ _ (by simp_arith)

/-- The `for (const [k, v] of Object.entries(extra))` loop: assign the
extra entries into the accumulated field list, in order. -/
def applyOverride : List (String × JValue) → List (String × JValue) → List (String × JValue)
  | out, [] => out
  | out, (k, v) :: rest => applyOverride (assignField out k v) rest
termination_by out es => (sizeOf es, 0)
decreasing_by
  all_goals simp_wf
  · exact Prod.Lex.left _ _ (by simp_arith)
  · exact Prod.Lex.left _ _ (by simp_arith)

/-- One `out[k] = k in out ? deepMerge(out[k], v) : v` assignment:
an existing key is updated in place (recursively merged), a new key is
appended at the end. -/
def assignField : List (String × JValue) → String → JValue → List (String × JValue)
  | [], k, v => [(k, v)]
  | (k', w) :: rest, k, v =>
    if k' = k then (k', deepMerge w v) :: rest
    else (k', w) :: assignField rest k v
termination_by out k v => (sizeOf v, sizeOf out + 1)
decreasing_by
  all_goals simp_wf
  · exact Prod.Lex.right _ (by simp_arith)
  · exact Prod.Lex.right _ (by simp_arith)

end

/-- The fields of an object value (used to inspect merge results). -/
def objFields : JValue → List (String × JValue)
  | .obj fields => fields
  | _ => []

/-! ## `src/packer.js` — discovery-adjacent pure parts and the packer -/

/-- The view of one filesystem path: `statSync` data plus the text
`readFileSync` would return. -/
structure FileEntry where
  isFile : Bool
  size : ℕ
  content : List Char
deriving DecidableEq

/-- `safeReadText(filePath, maxBytes)` from `src/packer.js`: `null` for
non-files and for files over the ceiling, the text otherwise.  A missing
path (where `statSync` would throw) is modelled as exclusion; discovery
only produces existing paths. -/
def safeReadText (fs : String → Option FileEntry) (filePath : String) (maxBytes : ℕ) :
    Option (List Char) :=
  match fs filePath with
  | none => none
  | some st =>
    if !st.isFile then none
    else if st.size > maxBytes then none
    else some st.content

/-- JS `text.split(/\r?\n/)`: CRLF is consumed as one separator, a lone
LF is a separator, a lone CR is ordinary content. -/
def splitLines : List Char → List (List Char)
  | [] => [[]]
  | '\r' :: '\n' :: rest => [] :: splitLines rest
  | '\n' :: rest => [] :: splitLines rest
  | c :: rest =>
    match splitLines rest with
    | [] => [[c]]
    | l :: ls => (c :: l) :: ls

/-- `stripEmptyLines(text)` from `src/packer.js`: drop the lines that are
empty after trimming, rejoin with LF. -/
def stripEmptyLines (text : List Char) : List Char :=
  List.intercalate ['\n'] ((splitLines text).filter (fun l => !(trimL l).isEmpty))

/-- `escapeXmlAttr(s)` from `src/packer.js`: the four `replaceAll` calls
in source order (`&`, `"`, `<`, `>`); earlier replacements are not
rescanned by later ones. -/
def escapeXmlAttr (s : List Char) : List Char :=
  repChar '>' ("&gt;").data
    (repChar '<' ("&lt;").data
      (repChar '"' ("&quot;").data
        (repChar '&' ("&amp;").data s)))

/-- The characters of the literal `"<![CDATA["`. -/
def cdOpen : List Char := ['<', '!', '[', 'C', 'D', 'A', 'T', 'A', '[']

/-- The characters of the literal `"]]>"`. -/
def cdClose : List Char := [']', ']', '>']

/-- The characters of the literal `"]]]]><![CDATA[>"` that replaces each
embedded `"]]>"`. -/
def cdReplacement : List Char :=
  [']', ']', ']', ']', '>', '<', '!', '[', 'C', 'D', 'A', 'T', 'A', '[', '>']

/-- JS `text.replaceAll("]]>", "]]]]><![CDATA[>")`: leftmost-first,
non-overlapping, replacements not rescanned. -/
def replaceTriple : List Char → List Char
  | [] => []
  | [c] => [c]
  | [c, d] => [c, d]
  | c :: d :: e :: rest =>
    if c = ']' ∧ d = ']' ∧ e = '>' then cdReplacement ++ replaceTriple rest
    else c :: replaceTriple (d :: e :: rest)

/-- `cdata(text)` from `src/packer.js`:
`"<![CDATA[" + text.replaceAll("]]>", "]]]]><![CDATA[>") + "]]>"`. -/
def cdata (text : List Char) : List Char :=
  cdOpen ++ replaceTriple text ++ cdClose

/-- `sumFileSizes(paths)` from `src/packer.js`: sum of `statSync(p).size`
over the paths that exist and are files; errors are swallowed.  Note that
no per-file size ceiling is applied here. -/
def sumFileSizes (fs : String → Option FileEntry) (paths : List String) : ℕ :=
  paths.foldl
    (fun total p =>
      match fs p with
      | some st => if st.isFile then total + st.size else total
      | none => total)
    0

/-- The byte sum as the specification's TokenEstimator section words it
(refinement foil, written from the spec's words rather than the source):
files over the per-file ceiling are excluded from the sum. -/
def sumFileSizesSpec (fs : String → Option FileEntry) (paths : List String)
    (maxFileBytes : ℕ) : ℕ :=
  paths.foldl
    (fun total p =>
      match fs p with
      | some st => if st.isFile ∧ st.size ≤ maxFileBytes then total + st.size else total
      | none => total)
    0

/-- `estimateTokensFromBytes(totalBytes, charsPerToken)` from
`src/packer.js`: `Math.ceil(totalBytes / charsPerToken)`, as natural
ceiling division (the divisor is a positive config value, default 4). -/
def estimateTokensFromBytes (totalBytes charsPerToken : ℕ) : ℕ :=
  (totalBytes + charsPerToken - 1) / charsPerToken

/-- The result record of `buildXml`. -/
structure BuildResult where
  xml : List Char
  totalChars : ℕ
  totalFiles : ℕ
deriving DecidableEq

/-- One iteration of the `buildXml` loop body: the relative path and the
(possibly empty-line-stripped) content of a file that passes
`safeReadText`, `none` when the file is skipped. -/
def packedEntry (fs : String → Option FileEntry) (rel : String → String)
    (maxFileBytes : ℕ) (removeEmptyLines : Bool) (absPath : String) :
    Option (String × List Char) :=
  match safeReadText fs absPath maxFileBytes with
  | none => none
  | some raw => some (rel absPath, if removeEmptyLines then stripEmptyLines raw else raw)

/-- One per-file record:
`  <file path="${escapeXmlAttr(rel)}">${cdata(content)}</file>`. -/
def fileRecord (relPath : String) (content : List Char) : List Char :=
  ("  <file path=\"").data ++ escapeXmlAttr relPath.data ++ ("\">").data
    ++ cdata content ++ ("</file>").data

/-- `buildXml({repoRoot, filePaths, maxFileBytes, removeEmptyLines})` from
`src/packer.js`.  `rel` stands for `relative(repoRoot, ·)` with separator
normalization (host path arithmetic, external to this core). -/
def buildXml (fs : String → Option FileEntry) (rel : String → String)
    (filePaths : List String) (maxFileBytes : ℕ) (removeEmptyLines : Bool) : BuildResult :=
  let entries := filePaths.filterMap (packedEntry fs rel maxFileBytes removeEmptyLines)
  let xml := List.intercalate ['\n']
    (("<context_slicer>").data :: (entries.map (fun pc => fileRecord pc.1 pc.2)
      ++ [("</context_slicer>").data, []]))
  ⟨xml, (entries.map (fun pc => pc.2.length)).sum, entries.length⟩

/-! ## A checker for sequences of CDATA sections

`scanBody` finds the first `"]]>"` of its input, exactly as an XML reader
terminates a CDATA section; `parseCdatas` (fuel-based, with enough fuel by
construction) parses one or more adjacent CDATA sections and returns the
concatenation of their bodies.  `cdata` producing a parse back to the
original text is the well-formedness property of the escaping scheme. -/

/-- Split the input at its first `"]]>"`: `some (body, rest)` with the
input equal to `body ++ "]]>" ++ rest` and no earlier terminator. -/
def scanBody : List Char → Option (List Char × List Char)
  | [] => none
  | [_] => none
  | [_, _] => none
  | c :: d :: e :: rest =>
    if c = ']' ∧ d = ']' ∧ e = '>' then some ([], rest)
    else (scanBody (d :: e :: rest)).map (fun br => (c :: br.1, br.2))

/-- Does the list contain `"]]>"` anywhere? -/
def hasClose : List Char → Bool
  | [] => false
  | [_] => false
  | [_, _] => false
  | c :: d :: e :: rest =>
    if c = ']' ∧ d = ']' ∧ e = '>' then true else hasClose (d :: e :: rest)

/-- Parse one or more adjacent CDATA sections, returning the concatenated
bodies; fuel-indexed. -/
def parseCdatasF : ℕ → List Char → Option (List Char)
  | 0, _ => none
  | fuel + 1, l =>
    match l with
    | '<' :: '!' :: '[' :: 'C' :: 'D' :: 'A' :: 'T' :: 'A' :: '[' :: rest =>
      match scanBody rest with
      | none => none
      | some (body, rest2) =>
        if rest2.isEmpty then some body
        else (parseCdatasF fuel rest2).map (fun more => body ++ more)
    | _ => none

/-- Parse a sequence of adjacent CDATA sections (the input's length is
always sufficient fuel: each section consumes at least twelve characters). -/
def parseCdatas (l : List Char) : Option (List Char) :=
  parseCdatasF l.length l

/-! ## `src/preset.js` — inclusion patterns -/

/-- `target.includes("*")`. -/
def containsStar (target : String) : Bool := target.data.contains '*'

/-- The `include` pattern list of `repomixArgsFor(preset, target, ...)`
from `src/preset.js`. -/
def repomixInclude (preset target : String) : List String :=
  if preset = ("tauri-root") then
    [("src/**/") ++ target ++ ("/**"), ("src-tauri/**/") ++ target ++ ("/**"),
     ("src/**"), ("src-tauri/**"), ("docs/**"), ("README*"), ("package.json")]
  else if preset = ("polylith") then
    [("apps/desktop/src/modules/") ++ target ++ ("/**"),
     ("apps/web/src/components/") ++ target ++ ("/**"),
     ("libs/**"), ("proto/**"), ("docs/**"), ("README*")]
  else
    [(if !target.isEmpty && containsStar target then target else target ++ ("/**")),
     ("src/**"), ("lib/**"), ("docs/**"), ("README*"), ("package.json")]

/-- The return value of `repomixArgsFor`; the field is named `include` in
the source. -/
structure Plan where
  includeGlobs : List String
  mode : String
deriving DecidableEq

/-- `repomixArgsFor(preset, target, outputDir, mode)` from
`src/preset.js`; `outputDir` is accepted and unused, as in the source. -/
def repomixArgsFor (preset target outputDir mode : String) : Plan :=
  ⟨repomixInclude preset target, mode⟩

/-! ## `src/focus_auto.js` — the orchestrator -/

/-- The `tokenEstimator` block of the resolved config. -/
structure TokenEstimatorCfg where
  charsPerToken : ℕ
  maxFileBytes : ℕ
deriving DecidableEq

/-- The resolved config returned by `loadConfig` (`src/config.js`);
resolving it reads the override file and is performed by the caller of
this embedding. -/
structure SlicerConfig where
  outputDir : String
  modelContexts : ModelCtx
  preset : String
  tokenEstimator : TokenEstimatorCfg
deriving DecidableEq

/-- The ambient host behavior `focusAuto` consumes: the filesystem view,
path relativization, glob discovery (`listFiles`, including ignore
rules), the detected preset, and the two model-identifier hints. -/
structure RepoEnv where
  fs : String → Option FileEntry
  rel : String → String
  discover : List String → List String
  detectedPreset : String
  envModel : Option String
  vscodeModel : Option String

/-- The metadata record a successful `focusAuto` run returns and
serializes; the sixth field is named `mode` in the source object literal. -/
structure SliceMeta where
  repoRoot : String
  preset : String
  target : String
  model : String
  budgetTokens : ℚ
  mode : String
  totalTokens : ℕ
  totalFiles : ℕ
  totalChars : ℕ
deriving DecidableEq

/-- The key/value pairs `JSON.stringify` emits for a `SliceMeta`, in the
object literal's insertion order (`src/focus_auto.js`). -/
def metaFields (m : SliceMeta) : List (String × JValue) :=
  [(("repoRoot"), JValue.str m.repoRoot),
   (("preset"), JValue.str m.preset),
   (("target"), JValue.str m.target),
   (("model"), JValue.str m.model),
   (("budgetTokens"), JValue.num m.budgetTokens),
   (("mode"), JValue.str m.mode),
   (("totalTokens"), JValue.num m.totalTokens),
   (("totalFiles"), JValue.num m.totalFiles),
   (("totalChars"), JValue.num m.totalChars)]

/-- Filesystem writes an invocation performs, in order (payloads elided;
the metadata payload's shape is modelled by `metaFields`).
`mkdirRecursive` and `writeFile` are issued by `focusAuto` itself;
`copyFile` is issued by the model-detection probe of
`src/vscode_detect.js` (its `copyFileSync` snapshot). -/
inductive FsOp where
  | mkdirRecursive (path : String)
  | writeFile (path : String)
  | copyFile (src dst : String)
deriving DecidableEq

/-- JS `a || b || ... || dflt` over strings (empty string is falsy). -/
def firstTruthy : List String → String → String
  | [], dflt => dflt
  | s :: rest, dflt => if s.isEmpty then firstTruthy rest dflt else s

/-- `join(a, b)` of `node:path`, for the forward-slash case. -/
def joinPath (a b : String) : String := a ++ ("/") ++ b

/-- The `preset` chosen before the tier loop: the configured value, or
the detected one when configured `"auto"`. -/
def effectivePreset (env : RepoEnv) (cfg : SlicerConfig) : String :=
  if cfg.preset = ("auto") then env.detectedPreset else cfg.preset

/-- One tier's estimate: discover the tier's include patterns, sum the
discovered files' sizes (no ceiling), estimate tokens. -/
def tierEstimate (env : RepoEnv) (cfg : SlicerConfig) (target mode : String) : ℕ :=
  let plan := repomixArgsFor (effectivePreset env cfg) target cfg.outputDir mode
  estimateTokensFromBytes (sumFileSizes env.fs (env.discover plan.includeGlobs))
    cfg.tokenEstimator.charsPerToken

/-- The message of the `Error` thrown when no tier fits:
`Unable to generate slice within budget=${budget} tokens`. -/
def budgetMessage (budget : ℚ) : String :=
  ("Unable to generate slice within budget=") ++ toString budget ++ (" tokens")

/-- The `for (const mode of modes)` loop of `focusAuto`: stop at the
first tier whose estimate fits, else fall through to the throw. -/
def tryModes (env : RepoEnv) (cfg : SlicerConfig)
    (repoRoot target resolvedModel : String) (budget : ℚ) (outDir : String) :
    List String → Except String SliceMeta × List FsOp
  | [] => (Except.error (budgetMessage budget), [])
  | mode :: rest =>
    let estTokens := tierEstimate env cfg target mode
    if (estTokens : ℚ) ≤ budget then
      let plan := repomixArgsFor (effectivePreset env cfg) target cfg.outputDir mode
      let built := buildXml env.fs env.rel (env.discover plan.includeGlobs)
        cfg.tokenEstimator.maxFileBytes true
      let meta : SliceMeta :=
        ⟨repoRoot, effectivePreset env cfg, target, resolvedModel, budget, mode,
         estTokens, built.totalFiles, built.totalChars⟩
      (Except.ok meta,
       [FsOp.writeFile (joinPath outDir ("active_context.xml")),
        FsOp.writeFile (joinPath outDir ("active_context.meta.json"))])
    else tryModes env cfg repoRoot target resolvedModel budget outDir rest

/-- The `resolvedModel` const of `focusAuto`: first non-empty normalized
candidate among the explicit id, the environment hint, and the detected
hint, else the fixed default identifier. -/
def resolvedModelOf (env : RepoEnv) (modelId : Option String) : String :=
  firstTruthy
    [normalizeModelName (modelId.getD ("")),
     normalizeModelName (env.envModel.getD ("")),
     env.vscodeModel.getD ("")] ("gpt-4.1")

/-- The `budget` const of `focusAuto`: a finite positive explicit
`budgetTokens` wins, otherwise `budgetForModel`. -/
def budgetOf (env : RepoEnv) (cfg : SlicerConfig) (modelId : Option String)
    (budgetTokens : Option ℚ) : ℚ :=
  match budgetTokens with
  | some b =>
    if 0 < b then b
    else budgetForModel (resolvedModelOf env modelId) cfg.modelContexts
  | none => budgetForModel (resolvedModelOf env modelId) cfg.modelContexts

/-- `focusAuto({repoRoot, target, modelId, budgetTokens})` from
`src/focus_auto.js`, returning the result together with the trace of the
filesystem writes `focusAuto` itself issues: its recursive `mkdirSync`
of the output directory — the first write, preceding model, budget,
preset and tier resolution, hence unconditionally first in the trace —
and its two `writeFileSync` calls of the success branch.  The writes of
the model-detection probe that line 21 of the source calls
unconditionally are modelled by `detectModelFromVSCodeGlobalState`
below, and the invocation's total write set by `invocationWrites`.
An explicit positive `budgetTokens` bypasses `budgetForModel`. -/
def focusAuto (env : RepoEnv) (cfg : SlicerConfig) (repoRoot target : String)
    (modelId : Option String) (budgetTokens : Option ℚ) :
    Except String SliceMeta × List FsOp :=
  let outDir := joinPath repoRoot cfg.outputDir
  let budget := budgetOf env cfg modelId budgetTokens
  let result := tryModes env cfg repoRoot target (resolvedModelOf env modelId)
    budget outDir (chooseModes budget)
  (result.1, FsOp.mkdirRecursive outDir :: result.2)

/-! ## `src/vscode_detect.js` — the model-detection probe and its writes -/

/-- The host state `detectModelFromVSCodeGlobalState` probes: whether
`sqlite3` is on the path, the candidate `state.vscdb` paths in source
order, `existsSync`, the tmpdir snapshot name generated for a
candidate's iteration (pid- and random-derived in the source), whether
`copyFileSync` succeeds, and the raw model string the `sqlite3` query
plus JSON extraction yields (`none` when the exec fails, the parse
throws, or the field is missing or empty — all of which `continue`). -/
structure VSCodeHost where
  hasSqlite : Bool
  candidates : List String
  pathExists : String → Bool
  snapshotOf : String → String
  copyOk : String → Bool
  rawModelOf : String → Option String

/-- The `for (const p of candidates)` loop of
`detectModelFromVSCodeGlobalState`: skip missing candidates, snapshot an
existing one with `copyFileSync` (a filesystem write; a throwing copy
`continue`s), query it, and return the first non-empty normalized model
— otherwise fall through to the next candidate. -/
def detectLoop (host : VSCodeHost) : List String → Option String × List FsOp
  | [] => (none, [])
  | p :: rest =>
    if host.pathExists p then
      if host.copyOk p then
        match host.rawModelOf p with
        | some raw =>
          if (normalizeModelName raw).isEmpty then
            ((detectLoop host rest).1,
             FsOp.copyFile p (host.snapshotOf p) :: (detectLoop host rest).2)
          else (some (normalizeModelName raw), [FsOp.copyFile p (host.snapshotOf p)])
        | none =>
          ((detectLoop host rest).1,
           FsOp.copyFile p (host.snapshotOf p) :: (detectLoop host rest).2)
      else detectLoop host rest
    else detectLoop host rest

/-- `detectModelFromVSCodeGlobalState()` from `src/vscode_detect.js`,
returning the detected model (if any) together with the filesystem
writes it performed: one tmpdir snapshot copy per existing candidate it
reached.  Without `sqlite3` it returns early and writes nothing. -/
def detectModelFromVSCodeGlobalState (host : VSCodeHost) :
    Option String × List FsOp :=
  if host.hasSqlite then detectLoop host host.candidates else (none, [])

/-- The total filesystem-write trace of one `focusAuto` invocation, in
source order: the recursive `mkdirSync` of the output directory
(line 18), then the writes of the unconditional model-detection probe
(line 21), then the success branch's `writeFileSync` calls (none when no
tier fits).  Coherent runs take `env.vscodeModel` equal to the probe's
result. -/
def invocationWrites (host : VSCodeHost) (env : RepoEnv) (cfg : SlicerConfig)
    (repoRoot target : String) (modelId : Option String)
    (budgetTokens : Option ℚ) : List FsOp :=
  FsOp.mkdirRecursive (joinPath repoRoot cfg.outputDir)
    :: (detectModelFromVSCodeGlobalState host).2
    ++ (tryModes env cfg repoRoot target (resolvedModelOf env modelId)
          (budgetOf env cfg modelId budgetTokens)
          (joinPath repoRoot cfg.outputDir)
          (chooseModes (budgetOf env cfg modelId budgetTokens))).2

/-! ## Concrete fixtures for witnesses and counterexamples -/

/-- An 8-byte text file. -/
def fileA : FileEntry := ⟨true, 8, List.replicate 8 'a'⟩

/-- A 40-byte text file. -/
def fileB : FileEntry := ⟨true, 40, List.replicate 40 'b'⟩

/-- A 2,000,000-byte file: over the default 1 MiB `maxFileBytes` ceiling. -/
def fileBig : FileEntry := ⟨true, 2000000, List.replicate 8 'c'⟩

/-- The default-shaped config used by the concrete runs. -/
def cfgW : SlicerConfig :=
  ⟨(".context-slicer"),
   ⟨[(("gpt-4.1"), ⟨some 64000⟩)], some ⟨some (1 / 4), some 6000, some 60000⟩⟩,
   ("auto"), ⟨4, 1048576⟩⟩

/-- A repository whose every tier discovers the single 8-byte file. -/
def envA : RepoEnv :=
  ⟨fun p => if p = ("a") then some fileA else none, fun p => p,
   fun _ => [("a")], ("generic"), none, none⟩

/-- A repository whose every tier discovers the single 40-byte file. -/
def envB : RepoEnv :=
  ⟨fun p => if p = ("b") then some fileB else none, fun p => p,
   fun _ => [("b")], ("generic"), none, none⟩

/-- A host with `sqlite3` available and one existing VS Code state
database: the snapshot copy succeeds and the query yields no model, so
the probe detects nothing yet performs one tmpdir write. -/
def hostW : VSCodeHost :=
  ⟨true, [("/home/u/.config/Code/User/globalStorage/state.vscdb")],
   fun p => p = ("/home/u/.config/Code/User/globalStorage/state.vscdb"),
   fun _ => ("/tmp/vscode-state-1234-cafe.vscdb"),
   fun _ => true,
   fun _ => none⟩

/-- A filesystem holding only the oversized file. -/
def fsBig : String → Option FileEntry :=
  fun p => if p = ("big") then some fileBig else none

/-- Default-document fields with a scalar and an array field. -/
def bfsW : List (String × JValue) :=
  [(("a"), JValue.num 1), (("arr"), JValue.arr [JValue.num 1, JValue.num 2])]

/-- Override-document fields replacing the array field. -/
def efsW : List (String × JValue) :=
  [(("arr"), JValue.arr [JValue.num 3])]

/-- The metadata record of the successful concrete run on `envA` with an
explicit budget of 100000. -/
def metaW : SliceMeta :=
  ⟨("r"), ("generic"), ("t"), ("gpt-4.1"), 100000, ("full"), 2, 1, 8⟩

/-! ## Lemmas about the CDATA escaping scheme -/

theorem scanBody_append_close (s : List Char) :
    ∀ a : List Char, hasClose a = false → scanBody (a ++ cdClose ++ s) = some (a, s) := by
  intro a
  induction a with
  | nil => intro _; simp [cdClose, scanBody]
  | cons c a' ih =>
    intro h
    match a' with
    | [] => simp [cdClose, scanBody]
    | [d] => simp [cdClose, scanBody]
    | d :: e :: rest =>
      by_cases hcond : c = ']' ∧ d = ']' ∧ e = '>'
      · simp [hasClose, hcond] at h
      · have h' : hasClose (d :: e :: rest) = false := by
          simpa [hasClose, hcond] using h
        have ihr := ih h'
        simp only [List.cons_append, List.append_assoc] at ihr ⊢
        simp [scanBody, hcond, ihr]

theorem replaceTriple_no_close :
    ∀ t : List Char, hasClose t = false → replaceTriple t = t := by
  intro t
  induction t with
  | nil => intro _; simp [replaceTriple]
  | cons c t' ih =>
    intro h
    match t' with
    | [] => simp [replaceTriple]
    | [d] => simp [replaceTriple]
    | d :: e :: rest =>
      by_cases hcond : c = ']' ∧ d = ']' ∧ e = '>'
      · simp [hasClose, hcond] at h
      · have h' : hasClose (d :: e :: rest) = false := by
          simpa [hasClose, hcond] using h
        simp [replaceTriple, hcond, ih h']

theorem replaceTriple_head (c : Char) (t : List Char) (hc : c ≠ ']') :
    replaceTriple (c :: t) = c :: replaceTriple t := by
  match t with
  | [] => simp [replaceTriple]
  | [d] => simp [replaceTriple]
  | d :: e :: rest => simp [replaceTriple, hc]

theorem replaceTriple_first_close (b : List Char) :
    ∀ a : List Char, hasClose a = false →
      replaceTriple (a ++ cdClose ++ b)
        = a ++ [']', ']'] ++ cdClose ++ cdOpen ++ '>' :: replaceTriple b := by
  intro a
  induction a with
  | nil =>
    intro _
    simp [cdClose, cdOpen, cdReplacement, replaceTriple]
  | cons c a' ih =>
    intro h
    match a' with
    | [] => simp [cdClose, cdOpen, cdReplacement, replaceTriple]
    | [d] => simp [cdClose, cdOpen, cdReplacement, replaceTriple]
    | d :: e :: rest =>
      by_cases hcond : c = ']' ∧ d = ']' ∧ e = '>'
      · simp [hasClose, hcond] at h
      · have h' : hasClose (d :: e :: rest) = false := by
          simpa [hasClose, hcond] using h
        have ihr := ih h'
        simp only [List.cons_append, List.append_assoc] at ihr ⊢
        simp [replaceTriple, hcond, ihr, List.append_assoc]

theorem hasClose_append_brackets :
    ∀ a : List Char, hasClose a = false → hasClose (a ++ [']', ']']) = false := by
  intro a
  induction a with
  | nil => intro _; simp [hasClose]
  | cons c a' ih =>
    intro h
    match a' with
    | [] => simp [hasClose]
    | [d] => simp [hasClose]
    | d :: e :: rest =>
      by_cases hcond : c = ']' ∧ d = ']' ∧ e = '>'
      · simp [hasClose, hcond] at h
      · have h' : hasClose (d :: e :: rest) = false := by
          simpa [hasClose, hcond] using h
        have ihr := ih h'
        simp only [List.cons_append, List.append_assoc] at ihr ⊢
        simp [hasClose, hcond, ihr]

theorem hasClose_decomp :
    ∀ t : List Char, hasClose t = true →
      ∃ a b, t = a ++ cdClose ++ b ∧ hasClose a = false := by
  intro t
  induction t with
  | nil => intro h; simp [hasClose] at h
  | cons c t' ih =>
    intro h
    match t' with
    | [] => simp [hasClose] at h
    | [d] => simp [hasClose] at h
    | d :: e :: rest =>
      by_cases hcond : c = ']' ∧ d = ']' ∧ e = '>'
      · refine ⟨[], rest, ?_, by simp [hasClose]⟩
        simp [cdClose, hcond.1, hcond.2.1, hcond.2.2]
      · have h' : hasClose (d :: e :: rest) = true := by
          simpa [hasClose, hcond] using h
        obtain ⟨a', b, heq, ha'⟩ := ih h'
        refine ⟨c :: a', b, by simp [heq], ?_⟩
        match a' with
        | [] => simp [hasClose]
        | [x] => simp [hasClose]
        | x :: y :: rest' =>
          have hxd : d = x ∧ e = y := by
            simp only [List.cons_append] at heq
            exact ⟨(List.cons.injEq _ _ _ _).mp heq |>.1,
                   ((List.cons.injEq _ _ _ _).mp heq |>.2 |> (List.cons.injEq _ _ _ _).mp) |>.1⟩
          have hnc : ¬ (c = ']' ∧ x = ']' ∧ y = '>') := by
            intro hx
            exact hcond ⟨hx.1, hxd.1 ▸ hx.2.1, hxd.2 ▸ hx.2.2⟩
          simpa [hasClose, hnc] using ha'

theorem parseCdatasF_replace :
    ∀ fuel : ℕ, ∀ t : List Char, t.length < fuel →
      parseCdatasF fuel (cdOpen ++ replaceTriple t ++ cdClose) = some t := by
  intro fuel
  induction fuel with
  | zero => intro t ht; exact absurd ht (Nat.not_lt_zero _)
  | succ fuel ih =>
    intro t ht
    by_cases hc : hasClose t = true
    · obtain ⟨a, b, rfl, ha⟩ := hasClose_decomp t hc
      have habr : hasClose (a ++ [']', ']']) = false := hasClose_append_brackets a ha
      have hscan := scanBody_append_close
        (cdOpen ++ '>' :: replaceTriple b ++ cdClose) (a ++ [']', ']']) habr
      have hrt := replaceTriple_first_close b a ha
      have hrec : parseCdatasF fuel (cdOpen ++ '>' :: replaceTriple b ++ cdClose)
          = some ('>' :: b) := by
        have hhead : replaceTriple ('>' :: b) = '>' :: replaceTriple b :=
          replaceTriple_head '>' b (by decide)
        have hlen : ('>' :: b).length < fuel := by
          simp only [List.length_append, List.length_cons, List.length_nil, cdClose] at ht
          simp only [List.length_cons]
          omega
        have := ih ('>' :: b) hlen
        rwa [hhead] at this
      rw [hrt]
      simp only [cdOpen, cdClose, List.cons_append, List.append_assoc, List.nil_append]
        at hscan hrec ⊢
      simp [parseCdatasF, hscan, hrec, List.append_assoc]
    · have hc' : hasClose t = false := by
        revert hc; cases hasClose t <;> simp
      rw [replaceTriple_no_close t hc']
      have hscan : scanBody (t ++ cdClose) = some (t, []) := by
        simpa using scanBody_append_close [] t hc'
      simp only [cdOpen, List.cons_append, List.append_assoc]
      simp [parseCdatasF, hscan]

theorem replaceTriple_length_le :
    ∀ t : List Char, t.length ≤ (replaceTriple t).length := by
  intro t
  induction t using replaceTriple.induct with
  | case1 => simp [replaceTriple]
  | case2 c => simp [replaceTriple]
  | case3 c d => simp [replaceTriple]
  | case4 c d e rest h ih =>
    simp only [replaceTriple, if_pos h, List.length_append, List.length_cons, cdReplacement]
    simp only [List.length]
    omega
  | case5 c d e rest h ih =>
    simp only [replaceTriple, if_neg h, List.length_cons] at ih ⊢
    omega

/-! ## Lemmas about deepMerge -/

theorem assignField_lookup_self (k : String) (v : JValue) :
    ∀ out : List (String × JValue),
      lookupF (assignField out k v) k
        = some (match lookupF out k with
                | some w => deepMerge w v
                | none => v) := by
  intro out
  induction out with
  | nil => simp [assignField, lookupF]
  | cons p rest ih =>
    obtain ⟨k', w⟩ := p
    by_cases hk : k' = k
    · subst hk
      simp [assignField, lookupF]
    · simp [assignField, lookupF, hk, ih]

theorem assignField_lookup_other (k k' : String) (v : JValue) (hne : k ≠ k') :
    ∀ out : List (String × JValue),
      lookupF (assignField out k v) k' = lookupF out k' := by
  intro out
  induction out with
  | nil => simp [assignField, lookupF, hne]
  | cons p rest ih =>
    obtain ⟨k0, w⟩ := p
    by_cases hk : k0 = k
    · subst hk
      simp [assignField, lookupF, hne]
    · simp [assignField, lookupF, hk, ih]

theorem applyOverride_lookup_absent (k : String) :
    ∀ (es out : List (String × JValue)), (∀ p ∈ es, p.1 ≠ k) →
      lookupF (applyOverride out es) k = lookupF out k := by
  intro es
  induction es with
  | nil => intro out _; simp [applyOverride]
  | cons p rest ih =>
    intro out hab
    obtain ⟨k0, v0⟩ := p
    have hk0 : k0 ≠ k := hab (k0, v0) (by simp)
    have hrest : ∀ p ∈ rest, p.1 ≠ k := fun p hp => hab p (by simp [hp])
    rw [applyOverride, ih (assignField out k0 v0) hrest,
      assignField_lookup_other k0 k v0 hk0]

theorem applyOverride_lookup (k : String) (v : JValue) :
    ∀ efs : List (String × JValue), (efs.map Prod.fst).Nodup →
      lookupF efs k = some v →
      ∀ out : List (String × JValue),
        lookupF (applyOverride out efs) k
          = some (match lookupF out k with
                  | some w => deepMerge w v
                  | none => v) := by
  intro efs
  induction efs with
  | nil => intro _ hl; simp [lookupF] at hl
  | cons p rest ih =>
    intro hnd hl out
    obtain ⟨k0, v0⟩ := p
    by_cases hk : k0 = k
    · subst hk
      have hv : v0 = v := by simpa [lookupF] using hl
      subst hv
      have hnotin : ∀ p ∈ rest, p.1 ≠ k0 := by
        intro p hp heq
        have : k0 ∈ rest.map Prod.fst := heq ▸ List.mem_map_of_mem Prod.fst hp
        exact (List.nodup_cons.mp (by simpa using hnd)).1 this
      rw [applyOverride, applyOverride_lookup_absent k0 rest _ hnotin,
        assignField_lookup_self k0 v0 out]
    · have hl' : lookupF rest k = some v := by simpa [lookupF, hk] using hl
      have hnd' : (rest.map Prod.fst).Nodup := (List.nodup_cons.mp (by simpa using hnd)).2
      rw [applyOverride, ih hnd' hl' (assignField out k0 v0),
        assignField_lookup_other k0 k v0 hk]

/-! ## Claim theorems -/

/-- C4: for every model identifier, every resolved context window
`windowTokens > 0`, and every policy with `targetFractionOfContext` in
`(0,1]` and `minBudgetTokens ≤ maxBudgetTokens`, `budgetForModel` returns
`floor(windowTokens * targetFractionOfContext)` clamped to
`[minBudgetTokens, maxBudgetTokens]`, hence always a value within that
closed interval. -/
theorem budgetForModel_clamped (model : String) (ctx : ModelCtx)
    (w f minB maxB : ℚ)
    (hw : windowTokensOf model ctx = w)
    (hf : (ctx.policy.bind BudgetPolicy.targetFractionOfContext).getD (1 / 4) = f)
    (hmin : (ctx.policy.bind BudgetPolicy.minBudgetTokens).getD 6000 = minB)
    (hmax : (ctx.policy.bind BudgetPolicy.maxBudgetTokens).getD 60000 = maxB)
    (hwpos : 0 < w) (hfpos : 0 < f) (hf1 : f ≤ 1) (hbounds : minB ≤ maxB) :
    budgetForModel model ctx = min maxB (max minB ((⌊w * f⌋ : ℤ) : ℚ))
      ∧ minB ≤ budgetForModel model ctx
      ∧ budgetForModel model ctx ≤ maxB := by
  have hb : budgetForModel model ctx = min maxB (max minB ((⌊w * f⌋ : ℤ) : ℚ)) := by
    simp only [budgetForModel]
    rw [hw, hf, hmin, hmax]
  refine ⟨hb, ?_, ?_⟩
  · rw [hb]
    exact le_min hbounds (le_max_left _ _)
  · rw [hb]
    exact min_le_left _ _

/-- Witness for C4: the default policy and the `gpt-4.1` window resolve
to the clamp of `floor(64000 / 4)`, inside `[6000, 60000]`. -/
theorem budgetForModel_clamped_witness :
    budgetForModel ("gpt-4.1") cfgW.modelContexts
        = min 60000 (max 6000 ((⌊(64000 : ℚ) * (1 / 4)⌋ : ℤ) : ℚ))
      ∧ (6000 : ℚ) ≤ budgetForModel ("gpt-4.1") cfgW.modelContexts
      ∧ budgetForModel ("gpt-4.1") cfgW.modelContexts ≤ 60000 :=
  budgetForModel_clamped ("gpt-4.1") cfgW.modelContexts 64000 (1 / 4) 6000 60000
    (by rfl) (by rfl) (by rfl) (by rfl)
    (by norm_num) (by norm_num) (by norm_num) (by norm_num)

/-- C5: tier-list selection is monotonic in budget — a strictly larger
budget never yields a strictly shorter tier list — and concretely budgets
at or above 45000 get all four tiers in order, budgets at or above 20000
(and below 45000) get the three leanest, and all smaller budgets get the
two leanest. -/
theorem chooseModes_monotone_thresholds :
    (∀ b1 b2 : ℚ, b1 < b2 → (chooseModes b1).length ≤ (chooseModes b2).length)
    ∧ (∀ b : ℚ, 45000 ≤ b →
        chooseModes b = [("full"), ("lite"), ("lite-compress"), ("lite-compress-min")])
    ∧ (∀ b : ℚ, 20000 ≤ b → b < 45000 →
        chooseModes b = [("lite"), ("lite-compress"), ("lite-compress-min")])
    ∧ (∀ b : ℚ, b < 20000 →
        chooseModes b = [("lite-compress"), ("lite-compress-min")]) := by
  refine ⟨?_, ?_, ?_, ?_⟩
  · intro b1 b2 hlt
    unfold chooseModes
    split_ifs <;> simp_all <;> linarith
  · intro b hb
    simp [chooseModes, hb]
  · intro b h1 h2
    simp [chooseModes, h1, not_le.mpr h2]
  · intro b h
    have h' : b < 45000 := lt_trans h (by norm_num)
    simp [chooseModes, not_le.mpr h, not_le.mpr h']

/-- Witness for C5 at the concrete budgets 15000, 25000 and 50000. -/
theorem chooseModes_monotone_thresholds_witness :
    (chooseModes 15000).length ≤ (chooseModes 25000).length
    ∧ chooseModes 50000 = [("full"), ("lite"), ("lite-compress"), ("lite-compress-min")]
    ∧ chooseModes 25000 = [("lite"), ("lite-compress"), ("lite-compress-min")]
    ∧ chooseModes 15000 = [("lite-compress"), ("lite-compress-min")] :=
  ⟨chooseModes_monotone_thresholds.1 15000 25000 (by norm_num),
   chooseModes_monotone_thresholds.2.1 50000 (by norm_num),
   chooseModes_monotone_thresholds.2.2.1 25000 (by norm_num) (by norm_num),
   chooseModes_monotone_thresholds.2.2.2 15000 (by norm_num)⟩

/-- C6: for every file content string — including content containing the
literal closing delimiter `]]>` — the CDATA block `cdata` emits for the
packed document is well-formed: every embedded `]]>` is split into two
adjacent CDATA sections, so a reader that terminates each section at its
first `]]>` parses the block as one unit and recovers the content
exactly. -/
theorem cdata_wellformed_roundtrip (text : List Char) :
    parseCdatas (cdata text) = some text := by
  have hlen : text.length < (cdata text).length := by
    have hle := replaceTriple_length_le text
    simp only [cdata, List.length_append, cdOpen, cdClose, List.length_cons,
      List.length_nil]
    omega
  have h := parseCdatasF_replace ((cdata text).length) text hlen
  simpa [parseCdatas, cdata] using h

/-- C7 counterexample: `normalizeModelName("GPT 4.1 (Preview)")` is not
`"gpt-4.1"`; the final `trim()` removes whitespace only, so the hyphen
left behind by deleting `"(preview)"` survives at the end. -/
theorem normalizeModelName_preview_cex :
    normalizeModelName ("GPT 4.1 (Preview)") ≠ ("gpt-4.1") := by decide

/-- C7 amended: `normalizeModelName("GPT 4.1 (Preview)")` equals
`"gpt-4.1-"` (with a trailing hyphen), and
`normalizeModelName("copilot/gpt-5@2024-01")` equals `"gpt-5"`. -/
theorem normalizeModelName_values :
    normalizeModelName ("GPT 4.1 (Preview)") = ("gpt-4.1-")
    ∧ normalizeModelName ("copilot/gpt-5@2024-01") = ("gpt-5") := by
  exact ⟨by decide, by decide⟩

/-- C8: for all default documents and all override documents `O` (JSON
objects, keys unique), `merge(default, O)` yields, for every key present
in `O`, `O`'s value — recursively merged when both sides hold objects —
and any non-object override value, in particular any array, replaces the
default wholesale, never a concatenation. -/
theorem deepMerge_override_semantics :
    (∀ (bfs efs : List (String × JValue)) (k : String) (v : JValue),
        (efs.map Prod.fst).Nodup → lookupF efs k = some v →
        lookupF (objFields (deepMerge (JValue.obj bfs) (JValue.obj efs))) k
          = some (match lookupF bfs k with
                  | some w => deepMerge w v
                  | none => v))
    ∧ (∀ b e : JValue, isObjectJ e = false → deepMerge b e = e)
    ∧ (∀ (b : JValue) (elems : List JValue),
        deepMerge b (JValue.arr elems) = JValue.arr elems) := by
  refine ⟨?_, ?_, ?_⟩
  · intro bfs efs k v hnd hl
    have hd : deepMerge (JValue.obj bfs) (JValue.obj efs)
        = JValue.obj (applyOverride bfs efs) := by
      simp [deepMerge]
    rw [hd]
    simpa [objFields] using applyOverride_lookup k v efs hnd hl bfs
  · intro b e he
    cases b <;> cases e <;> simp [deepMerge] <;> simp [isObjectJ] at he
  · intro b elems
    cases b <;> simp [deepMerge]

/-- Witness for C8: overriding the array field of `bfsW` with `efsW`'s
array yields the override array verbatim. -/
theorem deepMerge_override_semantics_witness :
    lookupF (objFields (deepMerge (JValue.obj bfsW) (JValue.obj efsW))) ("arr")
      = some (JValue.arr [JValue.num 3]) := by
  have h := deepMerge_override_semantics.1 bfsW efsW ("arr")
    (JValue.arr [JValue.num 3]) (by simp [efsW]) (by simp [efsW, lookupF])
  have harr := deepMerge_override_semantics.2.2
    (JValue.arr [JValue.num 1, JValue.num 2]) [JValue.num 3]
  rw [h]
  simp [bfsW, lookupF, harr]

/-! ## Lemmas about the orchestrator loop -/

theorem tryModes_error_ops (env : RepoEnv) (cfg : SlicerConfig)
    (rr tg rm : String) (budget : ℚ) (outD : String) :
    ∀ (modes : List String) (e : String) (ops2 : List FsOp),
      tryModes env cfg rr tg rm budget outD modes = (Except.error e, ops2) →
      ops2 = [] := by
  intro modes
  induction modes with
  | nil =>
    intro e ops2 h
    rw [tryModes] at h
    exact ((Prod.mk.injEq _ _ _ _).mp h).2.symm
  | cons mode rest ih =>
    intro e ops2 h
    simp only [tryModes] at h
    by_cases hle : ((tierEstimate env cfg tg mode : ℚ) ≤ budget)
    · rw [if_pos hle] at h
      exact absurd ((Prod.mk.injEq _ _ _ _).mp h).1 (by simp)
    · rw [if_neg hle] at h
      exact ih e ops2 h

theorem tryModes_ok_meta (env : RepoEnv) (cfg : SlicerConfig)
    (rr tg rm : String) (budget : ℚ) (outD : String) :
    ∀ (modes : List String) (m : SliceMeta) (ops2 : List FsOp),
      tryModes env cfg rr tg rm budget outD modes = (Except.ok m, ops2) →
      m.mode ∈ modes ∧ (m.totalTokens : ℚ) ≤ budget ∧ m.budgetTokens = budget := by
  intro modes
  induction modes with
  | nil =>
    intro m ops2 h
    rw [tryModes] at h
    exact absurd ((Prod.mk.injEq _ _ _ _).mp h).1 (by simp)
  | cons mode rest ih =>
    intro m ops2 h
    simp only [tryModes] at h
    by_cases hle : ((tierEstimate env cfg tg mode : ℚ) ≤ budget)
    · rw [if_pos hle] at h
      have hm := ((Prod.mk.injEq _ _ _ _).mp h).1
      injection hm with hm2
      subst hm2
      exact ⟨List.mem_cons_self _ _, hle, rfl⟩
    · rw [if_neg hle] at h
      have hr := ih m ops2 h
      exact ⟨List.mem_cons_of_mem _ hr.1, hr.2.1, hr.2.2⟩

theorem tryModes_all_over (env : RepoEnv) (cfg : SlicerConfig)
    (rr tg rm : String) (budget : ℚ) (outD : String) :
    ∀ modes : List String,
      (∀ mode ∈ modes, budget < (tierEstimate env cfg tg mode : ℚ)) →
      tryModes env cfg rr tg rm budget outD modes
        = (Except.error (budgetMessage budget), []) := by
  intro modes
  induction modes with
  | nil => intro _; rw [tryModes]
  | cons mode rest ih =>
    intro hall
    simp only [tryModes]
    rw [if_neg (not_le.mpr (hall mode (by simp)))]
    exact ih (fun m hm => hall m (by simp [hm]))

theorem focusAuto_error_ops_eq (env : RepoEnv) (cfg : SlicerConfig)
    (repoRoot target : String) (modelId : Option String)
    (budgetTokens : Option ℚ) (e : String) (ops : List FsOp)
    (h : focusAuto env cfg repoRoot target modelId budgetTokens
      = (Except.error e, ops)) :
    ops = [FsOp.mkdirRecursive (joinPath repoRoot cfg.outputDir)] := by
  have hfa : focusAuto env cfg repoRoot target modelId budgetTokens
      = ((tryModes env cfg repoRoot target (resolvedModelOf env modelId)
            (budgetOf env cfg modelId budgetTokens)
            (joinPath repoRoot cfg.outputDir)
            (chooseModes (budgetOf env cfg modelId budgetTokens))).1,
         FsOp.mkdirRecursive (joinPath repoRoot cfg.outputDir)
           :: (tryModes env cfg repoRoot target (resolvedModelOf env modelId)
                 (budgetOf env cfg modelId budgetTokens)
                 (joinPath repoRoot cfg.outputDir)
                 (chooseModes (budgetOf env cfg modelId budgetTokens))).2) := rfl
  rw [hfa] at h
  obtain ⟨h1, h2⟩ := (Prod.mk.injEq _ _ _ _).mp h
  have hR := tryModes_error_ops env cfg repoRoot target
    (resolvedModelOf env modelId) (budgetOf env cfg modelId budgetTokens)
    (joinPath repoRoot cfg.outputDir)
    (chooseModes (budgetOf env cfg modelId budgetTokens)) e _ (Prod.ext h1 rfl)
  exact h2.symm.trans
    (congrArg (FsOp.mkdirRecursive (joinPath repoRoot cfg.outputDir) :: ·) hR)

theorem focusAuto_error_tryModes_nil (env : RepoEnv) (cfg : SlicerConfig)
    (repoRoot target : String) (modelId : Option String)
    (budgetTokens : Option ℚ) (e : String) (ops : List FsOp)
    (h : focusAuto env cfg repoRoot target modelId budgetTokens
      = (Except.error e, ops)) :
    (tryModes env cfg repoRoot target (resolvedModelOf env modelId)
        (budgetOf env cfg modelId budgetTokens)
        (joinPath repoRoot cfg.outputDir)
        (chooseModes (budgetOf env cfg modelId budgetTokens))).2 = [] := by
  have hfa : focusAuto env cfg repoRoot target modelId budgetTokens
      = ((tryModes env cfg repoRoot target (resolvedModelOf env modelId)
            (budgetOf env cfg modelId budgetTokens)
            (joinPath repoRoot cfg.outputDir)
            (chooseModes (budgetOf env cfg modelId budgetTokens))).1,
         FsOp.mkdirRecursive (joinPath repoRoot cfg.outputDir)
           :: (tryModes env cfg repoRoot target (resolvedModelOf env modelId)
                 (budgetOf env cfg modelId budgetTokens)
                 (joinPath repoRoot cfg.outputDir)
                 (chooseModes (budgetOf env cfg modelId budgetTokens))).2) := rfl
  rw [hfa] at h
  obtain ⟨h1, -⟩ := (Prod.mk.injEq _ _ _ _).mp h
  exact tryModes_error_ops env cfg repoRoot target
    (resolvedModelOf env modelId) (budgetOf env cfg modelId budgetTokens)
    (joinPath repoRoot cfg.outputDir)
    (chooseModes (budgetOf env cfg modelId budgetTokens)) e _ (Prod.ext h1 rfl)

theorem detectLoop_writes_are_copies (host : VSCodeHost) :
    ∀ cands : List String, ∀ op ∈ (detectLoop host cands).2,
      ∃ src dst, op = FsOp.copyFile src dst := by
  intro cands
  induction cands with
  | nil => simp [detectLoop]
  | cons p rest ih =>
    intro op hop
    rw [detectLoop] at hop
    by_cases hex : host.pathExists p
    · rw [if_pos hex] at hop
      by_cases hcp : host.copyOk p
      · rw [if_pos hcp] at hop
        cases hraw : host.rawModelOf p with
        | none =>
          simp only [hraw] at hop
          rcases List.mem_cons.mp hop with hh | ht
          · exact ⟨p, host.snapshotOf p, hh⟩
          · exact ih op ht
        | some raw =>
          simp only [hraw] at hop
          by_cases hemp : (normalizeModelName raw).isEmpty
          · rw [if_pos hemp] at hop
            rcases List.mem_cons.mp hop with hh | ht
            · exact ⟨p, host.snapshotOf p, hh⟩
            · exact ih op ht
          · rw [if_neg hemp] at hop
            rcases List.mem_cons.mp hop with hh | ht
            · exact ⟨p, host.snapshotOf p, hh⟩
            · simp at ht
      · rw [if_neg hcp] at hop
        exact ih op hop
    · rw [if_neg hex] at hop
      exact ih op hop

theorem detect_writes_are_copies (host : VSCodeHost) :
    ∀ op ∈ (detectModelFromVSCodeGlobalState host).2,
      ∃ src dst, op = FsOp.copyFile src dst := by
  intro op hop
  rw [detectModelFromVSCodeGlobalState] at hop
  by_cases hs : host.hasSqlite
  · rw [if_pos hs] at hop
    exact detectLoop_writes_are_copies host host.candidates op hop
  · rw [if_neg hs] at hop
    simp at hop

/-! ## Lemmas about the packer's size ceiling -/

theorem filterMap_packedEntry_filter (fs : String → Option FileEntry)
    (rel : String → String) (maxB : ℕ) (rm : Bool) :
    ∀ paths : List String,
      (paths.filter (fun p => (safeReadText fs p maxB).isSome)).filterMap
          (packedEntry fs rel maxB rm)
        = paths.filterMap (packedEntry fs rel maxB rm) := by
  intro paths
  induction paths with
  | nil => simp
  | cons p rest ih =>
    cases hsr : safeReadText fs p maxB with
    | none => simp [List.filter_cons, List.filterMap_cons, hsr, packedEntry, ih]
    | some raw => simp [List.filter_cons, List.filterMap_cons, hsr, packedEntry, ih]

theorem sumFileSizes_general (fs : String → Option FileEntry) :
    ∀ (paths : List String) (acc : ℕ),
      List.foldl
        (fun total p =>
          match fs p with
          | some st => if st.isFile then total + st.size else total
          | none => total)
        acc paths
      = acc + (paths.map (fun p =>
          match fs p with
          | some st => if st.isFile then st.size else 0
          | none => 0)).sum := by
  intro paths
  induction paths with
  | nil => intro acc; simp
  | cons p rest ih =>
    intro acc
    cases hp : fs p with
    | none => simp [List.foldl_cons, hp, ih]
    | some st =>
      cases hf : st.isFile
      · simp [List.foldl_cons, hp, hf, ih]
      · simp [List.foldl_cons, hp, hf, ih, Nat.add_assoc]

/-! ## Claim theorems about the orchestrator -/

/-- C1 counterexample: two repositories whose (sole) tried tiers have
different estimates (2 vs. 10 tokens, both over the explicit budget 1)
produce the very same error value, which interpolates only the budget —
so the failure cannot carry the best (smallest) estimate seen. -/
theorem focusAuto_error_lacks_best_estimate_cex :
    tierEstimate envA cfgW ("t") ("lite-compress") = 2
    ∧ tierEstimate envB cfgW ("t") ("lite-compress") = 10
    ∧ (focusAuto envA cfgW ("r") ("t") none (some 1)).1
        = Except.error (budgetMessage 1)
    ∧ (focusAuto envB cfgW ("r") ("t") none (some 1)).1
        = Except.error (budgetMessage 1) :=
  ⟨rfl, rfl, rfl, rfl⟩

/-- C1 amended: if every tier in the budget-selected tier list yields an
estimate strictly greater than the budget, `focusAuto` fails with an
error that carries the attempted budget (in its message) — but not the
best estimate seen — and returns no metadata record; the only filesystem
write is the directory creation. -/
theorem focusAuto_budget_exceeded_error (env : RepoEnv) (cfg : SlicerConfig)
    (repoRoot target : String) (modelId : Option String) (b : ℚ) (hb : 0 < b)
    (hall : ∀ mode ∈ chooseModes b, b < (tierEstimate env cfg target mode : ℚ)) :
    focusAuto env cfg repoRoot target modelId (some b)
      = (Except.error (budgetMessage b),
         [FsOp.mkdirRecursive (joinPath repoRoot cfg.outputDir)]) := by
  have hbud : budgetOf env cfg modelId (some b) = b := by
    simp [budgetOf, hb]
  have hfa : focusAuto env cfg repoRoot target modelId (some b)
      = ((tryModes env cfg repoRoot target (resolvedModelOf env modelId)
            (budgetOf env cfg modelId (some b)) (joinPath repoRoot cfg.outputDir)
            (chooseModes (budgetOf env cfg modelId (some b)))).1,
         FsOp.mkdirRecursive (joinPath repoRoot cfg.outputDir)
           :: (tryModes env cfg repoRoot target (resolvedModelOf env modelId)
                 (budgetOf env cfg modelId (some b)) (joinPath repoRoot cfg.outputDir)
                 (chooseModes (budgetOf env cfg modelId (some b)))).2) := rfl
  rw [hfa, hbud,
    tryModes_all_over env cfg repoRoot target (resolvedModelOf env modelId) b
      (joinPath repoRoot cfg.outputDir) (chooseModes b) hall]

/-- Witness for C1 at `envA` with explicit budget 1: both tried tiers
estimate 2 tokens, over budget. -/
theorem focusAuto_budget_exceeded_error_witness :
    focusAuto envA cfgW ("r") ("t") none (some 1)
      = (Except.error (budgetMessage 1),
         [FsOp.mkdirRecursive (joinPath ("r") cfgW.outputDir)]) :=
  focusAuto_budget_exceeded_error envA cfgW ("r") ("t") none 1 (by norm_num)
    (by decide)

/-- C2 counterexample: a discovered 2,000,000-byte file exceeds the
default 1 MiB `maxFileBytes`, yet the byte sum used for the tier estimate
counts it in full (the spec-worded sum would be 0); only the packed
artifact excludes it. -/
theorem sumFileSizes_includes_oversized_cex :
    fsBig ("big") = some fileBig
    ∧ fileBig.size > cfgW.tokenEstimator.maxFileBytes
    ∧ sumFileSizes fsBig [("big")] = 2000000
    ∧ sumFileSizesSpec fsBig [("big")] cfgW.tokenEstimator.maxFileBytes = 0
    ∧ sumFileSizes fsBig [("big")]
        ≠ sumFileSizesSpec fsBig [("big")] cfgW.tokenEstimator.maxFileBytes
    ∧ (buildXml fsBig (fun p => p) [("big")] cfgW.tokenEstimator.maxFileBytes
        true).totalFiles = 0 :=
  ⟨rfl, by decide, rfl, rfl, by decide, rfl⟩

/-- C2 amended: a discovered file whose byte size exceeds
`tokenEstimator.maxFileBytes` is silently excluded from the packed
artifact (dropping every file that fails `safeReadText` leaves the
artifact unchanged), but its size still counts toward the byte sum used
for the tier's token estimate (the sum applies no ceiling). -/
theorem oversized_excluded_from_pack_not_sum :
    (∀ (fs : String → Option FileEntry) (rel : String → String)
        (paths : List String) (maxFileBytes : ℕ) (removeEmptyLines : Bool),
        buildXml fs rel
            (paths.filter (fun p => (safeReadText fs p maxFileBytes).isSome))
            maxFileBytes removeEmptyLines
          = buildXml fs rel paths maxFileBytes removeEmptyLines)
    ∧ (∀ (fs : String → Option FileEntry) (paths : List String),
        sumFileSizes fs paths
          = (paths.map (fun p =>
              match fs p with
              | some st => if st.isFile then st.size else 0
              | none => 0)).sum) := by
  constructor
  · intro fs rel paths maxB rm
    simp [buildXml, filterMap_packedEntry_filter fs rel maxB rm paths]
  · intro fs paths
    simpa [sumFileSizes] using sumFileSizes_general fs paths 0

/-- C3 counterexample: on the successful concrete run the serialized
metadata keys are the nine of the source object literal — the strategy
field is named `mode`, and no field is named `tier`. -/
theorem metaFields_mode_not_tier_cex :
    ((focusAuto envA cfgW ("r") ("t") none (some 100000)).1.toOption.map
        (fun m => (metaFields m).map Prod.fst))
      = some [("repoRoot"), ("preset"), ("target"), ("model"), ("budgetTokens"),
              ("mode"), ("totalTokens"), ("totalFiles"), ("totalChars")]
    ∧ ((focusAuto envA cfgW ("r") ("t") none (some 100000)).1.toOption.map
        (fun m => (metaFields m).map Prod.fst))
      ≠ some [("repoRoot"), ("preset"), ("target"), ("model"), ("budgetTokens"),
              ("tier"), ("totalTokens"), ("totalFiles"), ("totalChars")] := by
  constructor
  · rfl
  · intro h
    have h1 : ((focusAuto envA cfgW ("r") ("t") none (some 100000)).1.toOption.map
        (fun m => (metaFields m).map Prod.fst))
      = some [("repoRoot"), ("preset"), ("target"), ("model"), ("budgetTokens"),
              ("mode"), ("totalTokens"), ("totalFiles"), ("totalChars")] := rfl
    exact absurd (h1.symm.trans h) (by decide)

/-- C3 amended: on every successful fit the returned metadata record
serializes to exactly the nine fields `repoRoot, preset, target, model,
budgetTokens, mode, totalTokens, totalFiles, totalChars` (the winning
strategy name is held by the field named `mode`, not `tier`), and the
winning strategy is one of the budget-selected tiers with its estimate
within budget. -/
theorem focusAuto_success_meta_fields (env : RepoEnv) (cfg : SlicerConfig)
    (repoRoot target : String) (modelId : Option String)
    (budgetTokens : Option ℚ) (m : SliceMeta) (ops : List FsOp)
    (h : focusAuto env cfg repoRoot target modelId budgetTokens
      = (Except.ok m, ops)) :
    (metaFields m).map Prod.fst
      = [("repoRoot"), ("preset"), ("target"), ("model"), ("budgetTokens"),
         ("mode"), ("totalTokens"), ("totalFiles"), ("totalChars")]
    ∧ lookupF (metaFields m) ("mode") = some (JValue.str m.mode)
    ∧ m.mode ∈ chooseModes m.budgetTokens
    ∧ (m.totalTokens : ℚ) ≤ m.budgetTokens := by
  have hfa : focusAuto env cfg repoRoot target modelId budgetTokens
      = ((tryModes env cfg repoRoot target (resolvedModelOf env modelId)
            (budgetOf env cfg modelId budgetTokens)
            (joinPath repoRoot cfg.outputDir)
            (chooseModes (budgetOf env cfg modelId budgetTokens))).1,
         FsOp.mkdirRecursive (joinPath repoRoot cfg.outputDir)
           :: (tryModes env cfg repoRoot target (resolvedModelOf env modelId)
                 (budgetOf env cfg modelId budgetTokens)
                 (joinPath repoRoot cfg.outputDir)
                 (chooseModes (budgetOf env cfg modelId budgetTokens))).2) := rfl
  rw [hfa] at h
  obtain ⟨h1, -⟩ := (Prod.mk.injEq _ _ _ _).mp h
  have hm := tryModes_ok_meta env cfg repoRoot target
    (resolvedModelOf env modelId) (budgetOf env cfg modelId budgetTokens)
    (joinPath repoRoot cfg.outputDir)
    (chooseModes (budgetOf env cfg modelId budgetTokens)) m _ (Prod.ext h1 rfl)
  refine ⟨rfl, rfl, ?_, ?_⟩
  · rw [hm.2.2]
    exact hm.1
  · rw [hm.2.2]
    exact hm.2.1

/-- Witness for C3 at the successful concrete run on `envA`. -/
theorem focusAuto_success_meta_fields_witness :
    (metaFields metaW).map Prod.fst
      = [("repoRoot"), ("preset"), ("target"), ("model"), ("budgetTokens"),
         ("mode"), ("totalTokens"), ("totalFiles"), ("totalChars")]
    ∧ lookupF (metaFields metaW) ("mode") = some (JValue.str metaW.mode)
    ∧ metaW.mode ∈ chooseModes metaW.budgetTokens
    ∧ (metaW.totalTokens : ℚ) ≤ metaW.budgetTokens :=
  focusAuto_success_meta_fields envA cfgW ("r") ("t") none (some 100000) metaW
    [FsOp.mkdirRecursive (joinPath ("r") cfgW.outputDir),
     FsOp.writeFile (joinPath (joinPath ("r") cfgW.outputDir) ("active_context.xml")),
     FsOp.writeFile (joinPath (joinPath ("r") cfgW.outputDir) ("active_context.meta.json"))]
    (by rfl)

/-- C9: when an invocation fails because no tier fits the budget, neither
`active_context.xml` nor `active_context.meta.json` is written — the
failing run's write trace holds no file write at all, so output files
from a prior successful run are left untouched (state unchanged on error,
apart from directory creation). -/
theorem focusAuto_error_no_output_writes (env : RepoEnv) (cfg : SlicerConfig)
    (repoRoot target : String) (modelId : Option String)
    (budgetTokens : Option ℚ) (e : String) (ops : List FsOp)
    (h : focusAuto env cfg repoRoot target modelId budgetTokens
      = (Except.error e, ops)) :
    ops = [FsOp.mkdirRecursive (joinPath repoRoot cfg.outputDir)]
    ∧ ∀ p : String, FsOp.writeFile p ∉ ops := by
  have hops := focusAuto_error_ops_eq env cfg repoRoot target modelId budgetTokens
    e ops h
  refine ⟨hops, ?_⟩
  intro p hmem
  rw [hops] at hmem
  simp at hmem

/-- Witness for C9: the failing run on `envA` with explicit budget 1
(the spec's own unsatisfiable-budget example). -/
theorem focusAuto_error_no_output_writes_witness :
    ([FsOp.mkdirRecursive (joinPath ("r") cfgW.outputDir)]
        = [FsOp.mkdirRecursive (joinPath ("r") cfgW.outputDir)])
    ∧ ∀ p : String,
        FsOp.writeFile p ∉ [FsOp.mkdirRecursive (joinPath ("r") cfgW.outputDir)] :=
  focusAuto_error_no_output_writes envA cfgW ("r") ("t") none (some 1)
    (budgetMessage 1) [FsOp.mkdirRecursive (joinPath ("r") cfgW.outputDir)] (by rfl)

/-- C10 counterexample: on a host with `sqlite3` and one existing VS
Code state database, the model-detection probe that `focusAuto` calls
unconditionally (before it can fail) copies a tmpdir snapshot — so on
the failing run with explicit budget 1 the invocation's total write set
is the directory creation plus that snapshot copy, not the directory
creation alone. -/
theorem focusAuto_failure_extra_probe_write_cex :
    (detectModelFromVSCodeGlobalState hostW).1 = none
    ∧ (detectModelFromVSCodeGlobalState hostW).2
        = [FsOp.copyFile ("/home/u/.config/Code/User/globalStorage/state.vscdb")
            ("/tmp/vscode-state-1234-cafe.vscdb")]
    ∧ (focusAuto envA cfgW ("r") ("t") none (some 1)).1
        = Except.error (budgetMessage 1)
    ∧ invocationWrites hostW envA cfgW ("r") ("t") none (some 1)
        = [FsOp.mkdirRecursive (joinPath ("r") cfgW.outputDir),
           FsOp.copyFile ("/home/u/.config/Code/User/globalStorage/state.vscdb")
             ("/tmp/vscode-state-1234-cafe.vscdb")]
    ∧ invocationWrites hostW envA cfgW ("r") ("t") none (some 1)
        ≠ [FsOp.mkdirRecursive (joinPath ("r") cfgW.outputDir)] :=
  ⟨rfl, rfl, rfl, rfl, by decide⟩

/-- C10 amended: `focusAuto` creates the configured output directory
(recursively) before resolving the model, budget, or any tier, so after
any invocation — including one failing with the budget-exceeded error —
the output directory exists, and on the failure path that directory
creation is the only write `focusAuto` itself performs; it is not,
however, the invocation's only filesystem write: the model-detection
probe, called unconditionally, may additionally copy snapshots of the
editor's state database to the temp directory, and those copies are the
only other writes of the failure path. -/
theorem focusAuto_mkdir_first_total_writes (host : VSCodeHost) (env : RepoEnv)
    (cfg : SlicerConfig) (repoRoot target : String) (modelId : Option String)
    (budgetTokens : Option ℚ)
    (henv : env.vscodeModel = (detectModelFromVSCodeGlobalState host).1) :
    ((focusAuto env cfg repoRoot target modelId budgetTokens).2.head?
        = some (FsOp.mkdirRecursive (joinPath repoRoot cfg.outputDir)))
    ∧ ((invocationWrites host env cfg repoRoot target modelId budgetTokens).head?
        = some (FsOp.mkdirRecursive (joinPath repoRoot cfg.outputDir)))
    ∧ (∀ (e : String) (ops : List FsOp),
        focusAuto env cfg repoRoot target modelId budgetTokens
          = (Except.error e, ops) →
        invocationWrites host env cfg repoRoot target modelId budgetTokens
          = FsOp.mkdirRecursive (joinPath repoRoot cfg.outputDir)
              :: (detectModelFromVSCodeGlobalState host).2)
    ∧ (∀ op ∈ (detectModelFromVSCodeGlobalState host).2,
        ∃ src dst, op = FsOp.copyFile src dst) := by
  refine ⟨rfl, rfl, ?_, detect_writes_are_copies host⟩
  intro e ops h
  have hnil := focusAuto_error_tryModes_nil env cfg repoRoot target modelId
    budgetTokens e ops h
  simp [invocationWrites, hnil]

/-- Witness for C10 on the failing concrete run against `hostW`. -/
theorem focusAuto_mkdir_first_total_writes_witness :
    ((focusAuto envA cfgW ("r") ("t") none (some 1)).2.head?
        = some (FsOp.mkdirRecursive (joinPath ("r") cfgW.outputDir)))
    ∧ (invocationWrites hostW envA cfgW ("r") ("t") none (some 1)
        = FsOp.mkdirRecursive (joinPath ("r") cfgW.outputDir)
            :: (detectModelFromVSCodeGlobalState hostW).2)
    ∧ (∀ op ∈ (detectModelFromVSCodeGlobalState hostW).2,
        ∃ src dst, op = FsOp.copyFile src dst) :=
  ⟨(focusAuto_mkdir_first_total_writes hostW envA cfgW ("r") ("t") none (some 1)
      (by rfl)).1,
   (focusAuto_mkdir_first_total_writes hostW envA cfgW ("r") ("t") none (some 1)
      (by rfl)).2.2.1 (budgetMessage 1)
     [FsOp.mkdirRecursive (joinPath ("r") cfgW.outputDir)] (by rfl),
   (focusAuto_mkdir_first_total_writes hostW envA cfgW ("r") ("t") none (some 1)
      (by rfl)).2.2.2⟩

end CS
